import Mathlib

/-!
Verification of the document modeling, embedding, and query-translation layer
of the Nobel-prize indexing service.

The JavaScript sources are embedded shallowly:
  - JS strings are Lean `String`s (sequences of characters; `charCodeAt`
    becomes the code of the character at that position);
  - JS objects with possibly-missing fields become structures with
    `Option String` fields (`none` models `undefined`);
  - JS numbers used as vector entries become exact rationals `ℚ`;
  - a thrown-and-caught JS exception becomes an `Except` value;
  - the Redis/RediSearch store is modeled through its contract: a list of
    documents, with tag-equality and numeric-range queries acting as
    filters, and full-text search results taken as an arbitrary list of
    returned documents.
-/

/-! ## JS string primitives -/

/-- Truth value of a JS string-or-undefined in boolean position:
`!x` is true when the field is `undefined` or the empty string. -/
def jsFalsy : Option String → Bool
  | none => true
  | some s => s.isEmpty

/-- The ECMAScript whitespace and line-terminator code points stripped by
`String.prototype.trim`: TAB, LF, VT, FF, CR, SPACE, NBSP, ZWNBSP, LS, PS,
Ogham space mark, the en-quad..hair-space block, NNBSP, MMSP, and
ideographic space. -/
def jsIsWhitespace (c : Char) : Bool :=
  let n := c.toNat
  n == 0x09 || n == 0x0A || n == 0x0B || n == 0x0C || n == 0x0D || n == 0x20 ||
  n == 0xA0 || n == 0xFEFF || n == 0x2028 || n == 0x2029 || n == 0x1680 ||
  (0x2000 <= n && n <= 0x200A) || n == 0x202F || n == 0x205F || n == 0x3000

/-- JS `String.prototype.trim`: strip leading and trailing whitespace. -/
def jsTrim (s : String) : String :=
  String.mk (((s.toList.dropWhile jsIsWhitespace).reverse.dropWhile jsIsWhitespace).reverse)

/-- JS `String.prototype.toLowerCase`, restricted to the ASCII case mapping
relevant to this corpus. -/
def jsToLower (s : String) : String :=
  String.mk (s.toList.map Char.toLower)

/-- JS `hay.includes(needle)`: substring containment on character sequences. -/
def jsIncludes (hay needle : String) : Bool :=
  (List.range (hay.toList.length + 1)).any fun i =>
    needle.toList.isPrefixOf (hay.toList.drop i)

/-- JS `s.charCodeAt(i)` for `i` below the string length. -/
def charCodeAt (s : String) (i : Nat) : Nat :=
  (s.toList.getD i (Char.ofNat 0)).toNat

/-! ## Embedding encoder (`nobel-prize-redis/uploadnobeldata.js`) -/

/-- Embedding of `someVectorEmbeddingFunction`: a 128-slot vector,
zero-filled, whose slot `i` is set to `fullName.charCodeAt(i) / 255` for
every `i < min(fullName.length, 128)`. -/
def someVectorEmbeddingFunction (fullName : String) : List ℚ :=
  (List.range 128).map fun i =>
    if i < min fullName.length 128 then (charCodeAt fullName i : ℚ) / 255 else 0

/-- Slot `i` of the embedding vector, read with default 0. -/
def embedSlot (fullName : String) (i : Nat) : ℚ :=
  (someVectorEmbeddingFunction fullName).getD i 0

/-! ## Data model -/

/-- A laureate object as it occurs inside a prize document. Every field may
be absent (`undefined`) in the raw data. -/
structure Laureate where
  id : Option String
  firstname : Option String
  surname : Option String
  motivation : Option String
  share : Option String
deriving DecidableEq, Repr

/-- An AwardRecord from the source feed, already year-filtered; per the data
model the year is an integer. -/
structure Prize where
  year : Nat
  category : String
  laureates : List Laureate
deriving DecidableEq, Repr

/-- A Layout-A document as the four query handlers see it in a search
result under the projection `['$.year','$.category','$.laureates']`. The
`laureates` field arrives as a serialized sub-document string:
`some ls` models a string that `JSON.parse` turns into the list `ls`,
`none` models a malformed string on which `JSON.parse` throws. -/
structure SearchDoc where
  year : Int
  category : String
  laureates : Option (List Laureate)
deriving DecidableEq, Repr

/-- `JSON.parse(doc.value['$.laureates'])` guarded by the per-document
`try/catch`: a parse failure degrades to the empty list. -/
def parseLaureatesField : Option (List Laureate) → List Laureate
  | some ls => ls
  | none => []

/-- Status codes the RPC boundary can return. -/
inductive GrpcStatus
  | invalidArgument
  | internal
deriving DecidableEq, Repr

/-- A JS runtime exception (for example `TypeError` from calling a method
on `undefined`). -/
inductive JsError
  | typeError
deriving DecidableEq, Repr

/-- The query strings the handlers can issue against the store, kept
structured so theorems can talk about which query was executed. -/
inductive RedisQuery
  | tagEq (category : String)
  | categoryYearRange (category : String) (startYear endYear : Int)
deriving DecidableEq, Repr

/-! ## Query service handlers (`grpc-service/server/index.js`) -/

/-- The per-laureate response object built by the handlers (a fresh object
with exactly the five laureate fields). -/
def laureateOut (l : Laureate) : Laureate :=
  { id := l.id, firstname := l.firstname, surname := l.surname,
    motivation := l.motivation, share := l.share }

/-- A prize entry in the `GetPrizesByCategory` response. -/
structure PrizeOut where
  year : Int
  category : String
  laureates : List Laureate
deriving DecidableEq, Repr

/-- The `PrizesResponse` message. -/
structure PrizesResponse where
  prizes : List PrizeOut
deriving DecidableEq, Repr

/-- Store semantics of the tag-equality query `@category:{tag}` over the
Layout-A index: the documents whose categorical field equals the tag. -/
def ftSearchTag (store : List SearchDoc) (tag : String) : List SearchDoc :=
  store.filter fun d => d.category == tag

/-- Handler `GetPrizesByCategory`. The `category` argument models the
caller-supplied category; the handler body never reads its request and
issues the fixed query `@category:{chemistry}`. Returns the list of queries
executed and the RPC outcome. -/
def GetPrizesByCategory (store : List SearchDoc) (category : String) :
    List RedisQuery × Except GrpcStatus PrizesResponse :=
  let query := RedisQuery.tagEq "chemistry"
  let results := ftSearchTag store "chemistry"
  let prizes : List PrizeOut := results.map fun doc =>
    { year := doc.year, category := doc.category,
      laureates := (parseLaureatesField doc.laureates).map laureateOut }
  ([query], .ok { prizes := prizes })

/-- The ByCategory operation as the spec words it: all Layout-A documents
whose categorical field exactly equals the caller-supplied `category`. -/
def byCategorySpec (store : List SearchDoc) (category : String) : List SearchDoc :=
  store.filter fun d => d.category == category

/-- A laureate entry of the two counting responses, annotated with the
parent year and category. -/
structure LaureateDetails where
  year : Int
  category : String
  id : Option String
  firstname : Option String
  surname : Option String
  motivation : Option String
  share : Option String
deriving DecidableEq, Repr

/-- The `CountLaureatesResponse` message. -/
structure CountLaureatesResponse where
  totalLaureates : Nat
  laureates : List LaureateDetails
deriving DecidableEq, Repr

/-- The laureate detail pushed for document `doc` and laureate `l`. -/
def countDetailOf (doc : SearchDoc) (l : Laureate) : LaureateDetails :=
  { year := doc.year, category := doc.category, id := l.id,
    firstname := l.firstname, surname := l.surname,
    motivation := l.motivation, share := l.share }

/-- Store semantics of the combined query
`@category:{category} @year:[startYear endYear]` over the Layout-A index. -/
def ftSearchCategoryYear (store : List SearchDoc) (category : String)
    (startYear endYear : Int) : List SearchDoc :=
  store.filter fun d =>
    d.category == category && decide (startYear ≤ d.year) && decide (d.year ≤ endYear)

/-- The nested `forEach` accumulation of `CountLaureatesByCategoryAndYearRange`:
every laureate of every returned document bumps the counter and is pushed. -/
def countAccumulate (docs : List SearchDoc) : Nat × List LaureateDetails :=
  docs.foldl
    (fun acc doc =>
      (parseLaureatesField doc.laureates).foldl
        (fun acc2 l => (acc2.1 + 1, acc2.2 ++ [countDetailOf doc l])) acc)
    (0, [])

/-- Handler `CountLaureatesByCategoryAndYearRange`: bounds check first,
then the combined tag + numeric-range query. Returns the list of queries
executed and the RPC outcome. -/
def CountLaureatesByCategoryAndYearRange (store : List SearchDoc)
    (category : String) (startYear endYear : Int) :
    List RedisQuery × Except GrpcStatus CountLaureatesResponse :=
  if startYear < 2013 ∨ endYear > 2023 then
    ([], .error .invalidArgument)
  else
    let results := ftSearchCategoryYear store category startYear endYear
    let acc := countAccumulate results
    ([RedisQuery.categoryYearRange category startYear endYear],
      .ok { totalLaureates := acc.1, laureates := acc.2 })

/-- The client-side filter of `CountLaureatesByMotivationKeyword`:
`laureate.motivation.toLowerCase().includes(keyword.toLowerCase())`,
`false` when the motivation is absent. -/
def motivationMatches (keyword : String) (l : Laureate) : Bool :=
  match l.motivation with
  | some m => jsIncludes (jsToLower m) (jsToLower keyword)
  | none => false

/-- One step of the inner `forEach` of `CountLaureatesByMotivationKeyword`.
Reading `laureate.motivation.toLowerCase()` throws a `TypeError` when the
motivation field is absent. -/
def motivationStep (keyword : String) (doc : SearchDoc)
    (acc : Nat × List LaureateDetails) (l : Laureate) :
    Except JsError (Nat × List LaureateDetails) :=
  match l.motivation with
  | none => .error .typeError
  | some m =>
    if jsIncludes (jsToLower m) (jsToLower keyword) then
      .ok (acc.1 + 1, acc.2 ++ [countDetailOf doc l])
    else
      .ok acc

/-- The nested `forEach` accumulation of `CountLaureatesByMotivationKeyword`;
an exception from any laureate aborts the whole traversal. -/
def motivationFold (keyword : String) (docs : List SearchDoc) :
    Except JsError (Nat × List LaureateDetails) :=
  docs.foldlM
    (fun acc doc => (parseLaureatesField doc.laureates).foldlM (motivationStep keyword doc) acc)
    (0, [])

/-- Handler `CountLaureatesByMotivationKeyword`. `results` is the list of
documents the full-text query `@motivation:(keyword)` returned, left
arbitrary because the client-side filter makes the final decision. An
uncaught exception inside the accumulation reaches the outer `catch` and
turns into an internal error. -/
def CountLaureatesByMotivationKeyword (results : List SearchDoc) (keyword : String) :
    Except GrpcStatus CountLaureatesResponse :=
  if keyword == "" || jsTrim keyword == "" then
    .error .invalidArgument
  else
    match motivationFold keyword results with
    | .error _ => .error .internal
    | .ok acc => .ok { totalLaureates := acc.1, laureates := acc.2 }

/-- The laureates of `docs` that pass the client-side motivation filter, in
traversal order, as detail entries. -/
def matchedDetails (keyword : String) (docs : List SearchDoc) : List LaureateDetails :=
  docs.flatMap fun doc =>
    ((parseLaureatesField doc.laureates).filter (motivationMatches keyword)).map
      (countDetailOf doc)

/-- The full document body carried by a `GetLaureateDetailsByName` search
result after resolution: `laureates` is `none` when the field is not an
array. -/
structure PrizeJson where
  year : Int
  category : String
  laureates : Option (List Laureate)
deriving DecidableEq, Repr

instance {ε α : Type} [DecidableEq ε] [DecidableEq α] : DecidableEq (Except ε α) := fun x y =>
  match x, y with
  | .ok a, .ok b =>
    if h : a = b then isTrue (by rw [h]) else isFalse (by intro he; cases he; exact h rfl)
  | .error a, .error b =>
    if h : a = b then isTrue (by rw [h]) else isFalse (by intro he; cases he; exact h rfl)
  | .ok _, .error _ => isFalse (by intro h; cases h)
  | .error _, .ok _ => isFalse (by intro h; cases h)

/-- How a `GetLaureateDetailsByName` search result yields its document:
either the `$` projection is present (`inline`, with `none` modeling a
string that fails to parse) or it is absent and the document is fetched by
key (`byKey`, with `.error` modeling a failed fetch). -/
inductive DocSource
  | inline (parsed : Option PrizeJson)
  | byKey (fetched : Except JsError PrizeJson)
deriving DecidableEq, Repr

/-- Resolution of one search result to a document: parse failures and fetch
failures are skipped (`continue`). -/
def docData : DocSource → Option PrizeJson
  | .inline (some p) => some p
  | .inline none => none
  | .byKey (.ok p) => some p
  | .byKey (.error _) => none

/-- The `laureates.find(...)` scan of `GetLaureateDetailsByName`.
`laureate.firstname.toLowerCase()` throws when the firstname is absent; the
surname is only read (and can only throw) after the firstname matched,
mirroring `&&` short-circuiting. -/
def findMatchingLaureate (firstname surname : String) :
    List Laureate → Except JsError (Option Laureate)
  | [] => .ok none
  | l :: ls =>
    match l.firstname with
    | none => .error .typeError
    | some f =>
      if jsToLower f == jsToLower firstname then
        match l.surname with
        | none => .error .typeError
        | some s =>
          if jsToLower s == jsToLower surname then .ok (some l)
          else findMatchingLaureate firstname surname ls
      else findMatchingLaureate firstname surname ls

/-- A `{year, category, motivation}` triple of the details response. -/
structure DetailsEntry where
  year : Int
  category : String
  motivation : Option String
deriving DecidableEq, Repr

/-- The `LaureateDetailsResponse` message. -/
structure LaureateDetailsResponse where
  laureates : List DetailsEntry
deriving DecidableEq, Repr

/-- The document loop of `GetLaureateDetailsByName`: unresolvable documents
and documents without a laureate array are skipped; a matching laureate
contributes one entry; an exception from the name scan aborts the loop. -/
def detailsFold (firstname surname : String) :
    List DocSource → Except JsError (List DetailsEntry)
  | [] => .ok []
  | d :: ds =>
    match docData d with
    | none => detailsFold firstname surname ds
    | some data =>
      match data.laureates with
      | none => detailsFold firstname surname ds
      | some ls => do
        let m ← findMatchingLaureate firstname surname ls
        let rest ← detailsFold firstname surname ds
        match m with
        | some l =>
          pure ({ year := data.year, category := data.category,
                  motivation := l.motivation } :: rest)
        | none => pure rest

/-- Handler `GetLaureateDetailsByName`. `results` is the list of documents
the exact-match name query returned. An uncaught exception inside the loop
reaches the outer `catch` and turns into an internal error. -/
def GetLaureateDetailsByName (results : List DocSource) (firstname surname : String) :
    Except GrpcStatus LaureateDetailsResponse :=
  if firstname == "" || surname == "" then
    .error .invalidArgument
  else if results.length == 0 then
    .ok { laureates := [] }
  else
    match detailsFold firstname surname results with
    | .error _ => .error .internal
    | .ok entries => .ok { laureates := entries }

/-! ## Layout-A document builder (`uploadnobeldata.js`) -/

/-- The decimal digit character for `d < 10`. -/
def digitChar (d : Nat) : Char := Char.ofNat (48 + d)

/-- Decimal rendering of a natural number, as JS template literals render
integers. -/
def natToChars (n : Nat) : List Char :=
  if n = 0 then ['0'] else ((Nat.digits 10 n).map digitChar).reverse

/-- Numeric value of a decimal digit character (inverse of `digitChar`). -/
def charToDigit (c : Char) : Nat := c.toNat - 48

/-- Decimal parsing of a character list, the inverse of `natToChars`. -/
def charsToNat (l : List Char) : Nat :=
  Nat.ofDigits 10 (l.reverse.map charToDigit)

/-- `createVectorField`: pipe-joined trimmed full names of the laureates. -/
def createVectorField (laureates : List Laureate) : String :=
  String.intercalate " | " (laureates.map fun l =>
    jsTrim ((l.firstname.getD "") ++ " " ++ (l.surname.getD "")))

/-- A Layout-A document as stored: the spread prize (laureates unchanged)
plus the derived `vectorField` and the year coerced to a number. -/
structure PrizeDocA where
  year : Int
  category : String
  laureates : List Laureate
  vectorField : String
deriving DecidableEq, Repr

/-- The document `uploadDataToRedis` stores for one prize. -/
def prizeDocA (p : Prize) : PrizeDocA :=
  { year := (p.year : Int), category := p.category, laureates := p.laureates,
    vectorField := createVectorField p.laureates }

/-- The key base `prize:${year}:${category}`. -/
def renderBase (year : Nat) (category : String) : List Char :=
  "prize:".toList ++ natToChars year ++ ':' :: category.toList

/-- The full key `${keyBase}:${counter}`. -/
def renderKey (base : List Char) (counter : Nat) : List Char :=
  base ++ ':' :: natToChars counter

/-- One stored Layout-A document together with the key base and the counter
value used for its key. -/
structure UploadedA where
  keyBase : List Char
  counter : Nat
  doc : PrizeDocA
deriving DecidableEq, Repr

/-- The loop of `uploadDataToRedis` (Layout A): per key base, take the
current counter (1 on first use), form the key, store the document, then
bump that base's counter. -/
def uploadDataToRedis : List Prize → (List Char → Nat) → List UploadedA
  | [], _ => []
  | p :: ps, counters =>
    let base := renderBase p.year p.category
    let counter := counters base
    { keyBase := base, counter := counter, doc := prizeDocA p } ::
      uploadDataToRedis ps (fun b => if b = base then counter + 1 else counters b)

/-- The whole Layout-A build, with every counter starting at 1. -/
def layoutA (ps : List Prize) : List UploadedA :=
  uploadDataToRedis ps (fun _ => 1)

/-- The rendered key of a stored document. -/
def uploadedKey (u : UploadedA) : List Char := renderKey u.keyBase u.counter

/-- All keys assigned by the Layout-A build. -/
def layoutAKeys (ps : List Prize) : List (List Char) := (layoutA ps).map uploadedKey

/-- Projection of a stored Layout-A document to what the search index
returns for it: its laureates field serializes and parses back unchanged. -/
def searchDocOfA (d : PrizeDocA) : SearchDoc :=
  { year := d.year, category := d.category, laureates := some d.laureates }

/-! ## Layout-B document builder (`nobel-prize-redis/uploadnobeldata.js`) -/

/-- `validateLaureate` distilled to its pass/fail outcome: it throws
exactly when both firstname and surname are absent or empty. -/
def validateLaureate (l : Laureate) : Bool :=
  !(jsFalsy l.firstname && jsFalsy l.surname)

/-- `generateLaureateVector`: embed the trimmed full name. -/
def generateLaureateVector (l : Laureate) : List ℚ :=
  someVectorEmbeddingFunction (jsTrim ((l.firstname.getD "") ++ " " ++ (l.surname.getD "")))

/-- A Layout-B document: key parts `laureate:${year}:${category}:${index}`
kept structured, plus the stored fields. The vector is kept as the raw
embedding; its 4-byte-float serialization is outside this model. -/
structure LaureateDoc where
  keyYear : Nat
  keyCategory : String
  keyIndex : Nat
  year : Int
  category : String
  motivation : String
  vector : List ℚ
deriving DecidableEq, Repr

/-- The Layout-B document built for laureate `l` of prize `p` at global
index `idx`. The motivation is defaulted to the empty string. -/
def laureateDocOf (p : Prize) (idx : Nat) (l : Laureate) : LaureateDoc :=
  { keyYear := p.year, keyCategory := p.category, keyIndex := idx,
    year := (p.year : Int), category := p.category,
    motivation := (l.motivation).getD "", vector := generateLaureateVector l }

/-- The inner laureate loop of the Layout-B `uploadDataToRedis`: invalid
laureates are skipped with a logged validation error (the batch continues);
valid ones get a document and bump the global laureate index. -/
def uploadLaureates (p : Prize) : List Laureate → Nat → List LaureateDoc × Nat
  | [], idx => ([], idx)
  | l :: ls, idx =>
    if validateLaureate l then
      let rest := uploadLaureates p ls (idx + 1)
      (laureateDocOf p idx l :: rest.1, rest.2)
    else
      uploadLaureates p ls idx

/-- The Layout-B build over a prize list, threading the global laureate
index across prize boundaries. -/
def buildLayoutB : List Prize → Nat → List LaureateDoc
  | [], _ => []
  | p :: ps, idx =>
    let r := uploadLaureates p p.laureates idx
    r.1 ++ buildLayoutB ps r.2

/-- The key-independent content of a Layout-B document. -/
structure LaureateDocContent where
  year : Int
  category : String
  motivation : String
  vector : List ℚ
deriving DecidableEq, Repr

/-- Content projection of a built Layout-B document. -/
def contentOf (d : LaureateDoc) : LaureateDocContent :=
  { year := d.year, category := d.category, motivation := d.motivation,
    vector := d.vector }

/-- The content the builder assigns to laureate `l` of prize `p`. -/
def laureateContentOf (p : Prize) (l : Laureate) : LaureateDocContent :=
  { year := (p.year : Int), category := p.category,
    motivation := (l.motivation).getD "", vector := generateLaureateVector l }

/-! ## Bounded-retry write (`safeJsonSet`) -/

/-- The retry bound of `safeJsonSet`. -/
def MAX_RETRIES : Nat := 3

/-- Observable outcome of one `safeJsonSet` call: how many write attempts
were made, whether one succeeded, and whether the final failure was logged.
The function always returns (never rethrows), so the type has no error
case. -/
structure SetTrace where
  attempts : Nat
  succeeded : Bool
  loggedFailure : Bool
deriving DecidableEq, Repr

/-- `safeJsonSet`: attempt the write; on failure retry while
`retries < MAX_RETRIES`, else log the final failure and give up without
propagating the error. `write r` is the store's response to the attempt
made at retry count `r`. -/
def safeJsonSet (write : Nat → Except Unit Unit) (retries : Nat) : SetTrace :=
  match write retries with
  | .ok _ => { attempts := 1, succeeded := true, loggedFailure := false }
  | .error _ =>
    if retries < MAX_RETRIES then
      let t := safeJsonSet write (retries + 1)
      { attempts := t.attempts + 1, succeeded := t.succeeded,
        loggedFailure := t.loggedFailure }
    else
      { attempts := 1, succeeded := false, loggedFailure := true }
termination_by MAX_RETRIES - retries
decreasing_by omega

/-! ## Concrete fixtures used by counterexamples and witnesses -/

/-- A laureate reference with neither firstname nor surname. -/
def noNameLaureate : Laureate :=
  { id := some "x", firstname := none, surname := none,
    motivation := some "m", share := some "1" }

/-- A prize whose only laureate has neither firstname nor surname. -/
def noNamePrize : Prize :=
  { year := 2019, category := "chemistry", laureates := [noNameLaureate] }

/-- A laureate whose motivation mentions development. -/
def devLaureate : Laureate :=
  { id := some "1", firstname := some "A", surname := some "B",
    motivation := some "for development of X", share := some "1" }

/-- A laureate with an unrelated motivation. -/
def otherLaureate : Laureate :=
  { id := some "2", firstname := some "C", surname := some "D",
    motivation := some "for unrelated Y", share := some "1" }

/-- A laureate whose motivation field is absent. -/
def noMotivationLaureate : Laureate :=
  { id := some "b", firstname := some "G", surname := some "T",
    motivation := none, share := some "2" }

/-! ## Theorems -/

theorem someVectorEmbeddingFunction_length (fullName : String) :
    (someVectorEmbeddingFunction fullName).length = 128 := by
  simp [someVectorEmbeddingFunction]

theorem embedSlot_eq (fullName : String) (i : Nat) (h : i < 128) :
    embedSlot fullName i =
      if i < min fullName.length 128 then (charCodeAt fullName i : ℚ) / 255 else 0 := by
  unfold embedSlot someVectorEmbeddingFunction
  rw [List.getD_eq_getElem?_getD, List.getElem?_map, List.getElem?_range h]
  rfl

theorem charCodeAt_le_255_of_codes (name : String)
    (hc : ∀ c ∈ name.toList, c.toNat ≤ 255) (i : Nat) (hi : i < name.length) :
    charCodeAt name i ≤ 255 := by
  unfold charCodeAt
  apply hc
  rw [List.getD_eq_getElem _ _ (show i < name.toList.length from hi)]
  exact List.getElem_mem _

/-- C2 (amended): `embed(name)` is deterministic, always returns a vector of
length exactly 128 whose entry at position `i` equals the character code at
`i` divided by 255 for `i < min(length(name), 128)` and is zero beyond the
name's length; every entry lies in `[0,1]` provided every character code of
the name is at most 255 (the normalizer divides by 255 although JS
character codes range up to 65535). -/
theorem embed_amended (name : String) :
    (someVectorEmbeddingFunction name).length = 128 ∧
    (∀ other : String, name = other →
      someVectorEmbeddingFunction name = someVectorEmbeddingFunction other) ∧
    (∀ i : Nat, i < min name.length 128 →
      embedSlot name i = (charCodeAt name i : ℚ) / 255) ∧
    (∀ i : Nat, min name.length 128 ≤ i → i < 128 → embedSlot name i = 0) ∧
    ((∀ c ∈ name.toList, c.toNat ≤ 255) →
      ∀ i : Nat, i < 128 → 0 ≤ embedSlot name i ∧ embedSlot name i ≤ 1) := by
  refine ⟨someVectorEmbeddingFunction_length name, ?_, ?_, ?_, ?_⟩
  · intro other h
    rw [h]
  · intro i hi
    rw [embedSlot_eq name i (lt_of_lt_of_le hi (min_le_right _ _)), if_pos hi]
  · intro i hmin hi
    rw [embedSlot_eq name i hi, if_neg (by omega)]
  · intro hc i hi
    rw [embedSlot_eq name i hi]
    by_cases hlt : i < min name.length 128
    · rw [if_pos hlt]
      constructor
      · positivity
      · rw [div_le_one (by norm_num)]
        have := charCodeAt_le_255_of_codes name hc i (lt_of_lt_of_le hlt (min_le_left _ _))
        exact_mod_cast this
    · rw [if_neg hlt]
      norm_num

/-- C2 (counterexample): for the one-character name with character code
256 the first entry of the embedding vector is `256 / 255`, which is
greater than 1, so not every entry lies in `[0,1]`. -/
theorem embed_range_counterexample :
    embedSlot (String.mk [Char.ofNat 256]) 0 = 256 / 255 ∧
    ¬ (embedSlot (String.mk [Char.ofNat 256]) 0 ≤ 1) := by
  have h := embedSlot_eq (String.mk [Char.ofNat 256]) 0 (by norm_num)
  have hlen : (String.mk [Char.ofNat 256]).length = 1 := rfl
  have hcode : charCodeAt (String.mk [Char.ofNat 256]) 0 = 256 := by decide
  rw [hlen, hcode] at h
  norm_num at h
  rw [h]
  norm_num

/-- C1 (amended): the ByCategory operation ignores the caller-supplied
category entirely (its request message is empty): for every category
argument it issues the fixed query `@category:{chemistry}` and returns
exactly the Layout-A documents whose categorical field equals
`"chemistry"`, reconstructed into prize objects. -/
theorem getPrizesByCategory_amended (store : List SearchDoc) (category : String) :
    (GetPrizesByCategory store category).1 = [RedisQuery.tagEq "chemistry"] ∧
    GetPrizesByCategory store category = GetPrizesByCategory store "chemistry" ∧
    (GetPrizesByCategory store category).2 =
      .ok { prizes := (byCategorySpec store "chemistry").map fun doc =>
        { year := doc.year, category := doc.category,
          laureates := (parseLaureatesField doc.laureates).map laureateOut } } ∧
    (∀ d : SearchDoc, d ∈ byCategorySpec store "chemistry" ↔
      d ∈ store ∧ d.category = "chemistry") := by
  refine ⟨rfl, rfl, rfl, ?_⟩
  intro d
  simp [byCategorySpec]

/-- C1 (counterexample): for the category argument `"physics"` and a store
holding one Layout-A document in category `"physics"`, the operation
returns no prizes although the store contains a document whose categorical
field equals the supplied category, so it does not select on equality with
the caller-supplied parameter. -/
theorem getPrizesByCategory_counterexample :
    (GetPrizesByCategory [⟨2019, "physics", some []⟩] "physics").2 =
      .ok { prizes := [] } ∧
    byCategorySpec [⟨2019, "physics", some []⟩] "physics" =
      [⟨2019, "physics", some []⟩] ∧
    (GetPrizesByCategory [⟨2019, "physics", some []⟩] "physics").2 ≠
      .ok { prizes := (byCategorySpec [⟨2019, "physics", some []⟩] "physics").map fun doc =>
        { year := doc.year, category := doc.category,
          laureates := (parseLaureatesField doc.laureates).map laureateOut } } := by
  refine ⟨rfl, by decide, by decide⟩

/-- C4: calling CountLaureatesByCategoryAndYearRange with
`startYear < 2013` or `endYear > 2023` fails with invalid-argument and
executes no query against the store; when the bounds check passes, exactly
the combined category + year-range query is executed and a normal response
is returned. -/
theorem countByCategoryAndYearRange_validation (store : List SearchDoc)
    (category : String) (startYear endYear : Int) :
    (startYear < 2013 ∨ endYear > 2023 →
      CountLaureatesByCategoryAndYearRange store category startYear endYear =
        ([], .error .invalidArgument)) ∧
    (¬ (startYear < 2013 ∨ endYear > 2023) →
      (CountLaureatesByCategoryAndYearRange store category startYear endYear).1 =
        [RedisQuery.categoryYearRange category startYear endYear] ∧
      ∃ resp, (CountLaureatesByCategoryAndYearRange store category startYear endYear).2 =
        .ok resp) := by
  constructor
  · intro h
    unfold CountLaureatesByCategoryAndYearRange
    rw [if_pos h]
  · intro h
    unfold CountLaureatesByCategoryAndYearRange
    rw [if_neg h]
    exact ⟨rfl, _, rfl⟩

theorem countByCategoryAndYearRange_validation_witness :
    CountLaureatesByCategoryAndYearRange [] "physics" 2000 2020 =
      ([], .error .invalidArgument) ∧
    (CountLaureatesByCategoryAndYearRange [] "physics" 2015 2020).1 =
      [RedisQuery.categoryYearRange "physics" 2015 2020] :=
  ⟨(countByCategoryAndYearRange_validation [] "physics" 2000 2020).1
      (Or.inl (by norm_num)),
   ((countByCategoryAndYearRange_validation [] "physics" 2015 2020).2
      (by norm_num)).1⟩

/-- C10: an inverted year range still inside the corpus bound
(`2013 ≤ endYear < startYear ≤ 2023`) passes validation, executes the
combined query against the store, and returns a normal response with zero
matches; the service never checks `startYear ≤ endYear`. -/
theorem countByCategoryAndYearRange_inverted (store : List SearchDoc)
    (category : String) (startYear endYear : Int)
    (h1 : 2013 ≤ endYear) (h2 : endYear < startYear) (h3 : startYear ≤ 2023) :
    CountLaureatesByCategoryAndYearRange store category startYear endYear =
      ([RedisQuery.categoryYearRange category startYear endYear],
        .ok { totalLaureates := 0, laureates := [] }) := by
  unfold CountLaureatesByCategoryAndYearRange
  rw [if_neg (by omega)]
  have hempty : ftSearchCategoryYear store category startYear endYear = [] := by
    unfold ftSearchCategoryYear
    rw [List.filter_eq_nil_iff]
    intro d _
    simp only [Bool.and_eq_true, decide_eq_true_eq, not_and]
    intro h' he
    obtain ⟨hb, hs⟩ := h'
    omega
  rw [hempty]
  rfl

theorem countByCategoryAndYearRange_inverted_witness :
    CountLaureatesByCategoryAndYearRange [⟨2018, "physics", some []⟩]
        "physics" 2020 2015 =
      ([RedisQuery.categoryYearRange "physics" 2020 2015],
        .ok { totalLaureates := 0, laureates := [] }) :=
  countByCategoryAndYearRange_inverted [⟨2018, "physics", some []⟩]
    "physics" 2020 2015 (by norm_num) (by norm_num) (by norm_num)

theorem motivationInner_ok (keyword : String) (doc : SearchDoc) (ls : List Laureate)
    (h : ∀ l ∈ ls, l.motivation ≠ none) (acc : Nat × List LaureateDetails) :
    ls.foldlM (motivationStep keyword doc) acc =
      .ok (acc.1 + (ls.filter (motivationMatches keyword)).length,
           acc.2 ++ (ls.filter (motivationMatches keyword)).map (countDetailOf doc)) := by
  induction ls generalizing acc with
  | nil => simp; rfl
  | cons l ls ih =>
    have htail : ∀ x ∈ ls, x.motivation ≠ none := fun x hx => h x (List.mem_cons_of_mem _ hx)
    cases hm : l.motivation with
    | none => exact absurd hm (h l (List.mem_cons_self _ _))
    | some m =>
      rw [List.foldlM_cons]
      by_cases hmatch : jsIncludes (jsToLower m) (jsToLower keyword)
      · have hstep : motivationStep keyword doc acc l = .ok (acc.1 + 1, acc.2 ++ [countDetailOf doc l]) := by
          unfold motivationStep
          rw [hm]
          simp [hmatch]
        rw [hstep]
        have hmm : motivationMatches keyword l = true := by
          unfold motivationMatches
          rw [hm]
          exact hmatch
        rw [show ((Except.ok (acc.1 + 1, acc.2 ++ [countDetailOf doc l]) :
              Except JsError (Nat × List LaureateDetails)) >>=
              fun acc2 => ls.foldlM (motivationStep keyword doc) acc2) =
            ls.foldlM (motivationStep keyword doc) (acc.1 + 1, acc.2 ++ [countDetailOf doc l]) from rfl]
        rw [ih htail]
        rw [List.filter_cons_of_pos hmm]
        simp [List.length_cons, Nat.add_comm, Nat.add_assoc, Nat.add_left_comm]
      · have hstep : motivationStep keyword doc acc l = .ok acc := by
          unfold motivationStep
          rw [hm]
          simp [hmatch]
        rw [hstep]
        have hmm : motivationMatches keyword l = false := by
          unfold motivationMatches
          rw [hm]
          simpa using hmatch
        rw [show ((Except.ok acc : Except JsError (Nat × List LaureateDetails)) >>=
              fun acc2 => ls.foldlM (motivationStep keyword doc) acc2) =
            ls.foldlM (motivationStep keyword doc) acc from rfl]
        rw [ih htail]
        rw [List.filter_cons_of_neg (by simp [hmm])]

theorem motivationFold_ok_aux (keyword : String) (docs : List SearchDoc)
    (h : ∀ d ∈ docs, ∀ l ∈ parseLaureatesField d.laureates, l.motivation ≠ none)
    (acc : Nat × List LaureateDetails) :
    docs.foldlM
        (fun acc2 doc =>
          (parseLaureatesField doc.laureates).foldlM (motivationStep keyword doc) acc2)
        acc =
      .ok (acc.1 + (matchedDetails keyword docs).length,
           acc.2 ++ matchedDetails keyword docs) := by
  induction docs generalizing acc with
  | nil => simp [matchedDetails]; rfl
  | cons d ds ih =>
    have hd : ∀ l ∈ parseLaureatesField d.laureates, l.motivation ≠ none :=
      h d (List.mem_cons_self _ _)
    have hds : ∀ x ∈ ds, ∀ l ∈ parseLaureatesField x.laureates, l.motivation ≠ none :=
      fun x hx => h x (List.mem_cons_of_mem _ hx)
    rw [List.foldlM_cons]
    rw [motivationInner_ok keyword d (parseLaureatesField d.laureates) hd acc]
    rw [show ((Except.ok (acc.1 + ((parseLaureatesField d.laureates).filter (motivationMatches keyword)).length,
            acc.2 ++ ((parseLaureatesField d.laureates).filter (motivationMatches keyword)).map (countDetailOf d)) :
            Except JsError (Nat × List LaureateDetails)) >>=
          fun acc2 => ds.foldlM
            (fun acc3 doc =>
              (parseLaureatesField doc.laureates).foldlM (motivationStep keyword doc) acc3) acc2) =
        ds.foldlM
          (fun acc3 doc =>
            (parseLaureatesField doc.laureates).foldlM (motivationStep keyword doc) acc3)
          (acc.1 + ((parseLaureatesField d.laureates).filter (motivationMatches keyword)).length,
            acc.2 ++ ((parseLaureatesField d.laureates).filter (motivationMatches keyword)).map (countDetailOf d)) from rfl]
    rw [ih hds]
    unfold matchedDetails
    simp [List.length_append, List.append_assoc, Nat.add_assoc]

theorem motivationFold_ok (keyword : String) (docs : List SearchDoc)
    (h : ∀ d ∈ docs, ∀ l ∈ parseLaureatesField d.laureates, l.motivation ≠ none) :
    motivationFold keyword docs =
      .ok ((matchedDetails keyword docs).length, matchedDetails keyword docs) := by
  unfold motivationFold
  rw [motivationFold_ok_aux keyword docs h (0, [])]
  simp

theorem jsTrim_empty : jsTrim "" = "" := rfl

/-- C5: CountLaureatesByMotivationKeyword fails with invalid-argument for
every keyword that is empty or whitespace-only; for every non-empty
keyword, over any list of documents the full-text query returned whose
laureates all carry a motivation field, it counts and returns exactly
those laureates whose motivation contains the keyword as a
case-insensitive substring (the client-side filter is the final
decision). -/
theorem countByMotivationKeyword_spec (results : List SearchDoc) (keyword : String) :
    (jsTrim keyword = "" →
      CountLaureatesByMotivationKeyword results keyword = .error .invalidArgument) ∧
    (jsTrim keyword ≠ "" →
      (∀ d ∈ results, ∀ l ∈ parseLaureatesField d.laureates, l.motivation ≠ none) →
      CountLaureatesByMotivationKeyword results keyword =
        .ok { totalLaureates := (matchedDetails keyword results).length,
              laureates := matchedDetails keyword results }) := by
  constructor
  · intro h
    unfold CountLaureatesByMotivationKeyword
    rw [if_pos]
    rw [h]
    simp
  · intro h hwf
    unfold CountLaureatesByMotivationKeyword
    rw [if_neg]
    · rw [motivationFold_ok keyword results hwf]
    · intro hguard
      rcases Bool.or_eq_true_iff.mp hguard with hk | ht
      · have : keyword = "" := by simpa using hk
        exact h (by rw [this]; exact jsTrim_empty)
      · exact h (by simpa using ht)

theorem countByMotivationKeyword_spec_witness :
    CountLaureatesByMotivationKeyword [] " " = .error .invalidArgument ∧
    CountLaureatesByMotivationKeyword
        [⟨2017, "peace", some [devLaureate]⟩, ⟨2018, "peace", some [otherLaureate]⟩]
        "development" =
      .ok { totalLaureates := 1,
            laureates := [⟨2017, "peace", some "1", some "A", some "B",
                           some "for development of X", some "1"⟩] } := by
  constructor
  · exact (countByMotivationKeyword_spec [] " ").1 (by decide)
  · rw [(countByMotivationKeyword_spec
        [⟨2017, "peace", some [devLaureate]⟩, ⟨2018, "peace", some [otherLaureate]⟩]
        "development").2 (by decide) (by decide)]
    decide

theorem motivationFold_skip (keyword : String) (pre post : List SearchDoc)
    (bad : SearchDoc) (hb : bad.laureates = none) :
    motivationFold keyword (pre ++ bad :: post) = motivationFold keyword (pre ++ post) := by
  unfold motivationFold
  simp [List.foldlM_append, List.foldlM_cons, hb, parseLaureatesField]

theorem detailsFold_skip (firstname surname : String) (pre post : List DocSource)
    (bad : DocSource) (hb : docData bad = none) :
    detailsFold firstname surname (pre ++ bad :: post) =
      detailsFold firstname surname (pre ++ post) := by
  induction pre with
  | nil =>
    simp only [List.nil_append]
    rw [detailsFold]
    rw [hb]
  | cons d pre ih =>
    simp only [List.cons_append]
    cases d with
    | inline p =>
      cases p with
      | none =>
        simp only [detailsFold, docData]
        exact ih
      | some data =>
        obtain ⟨yy, cc, lls⟩ := data
        cases lls with
        | none =>
          simp only [detailsFold, docData]
          exact ih
        | some ls =>
          simp only [detailsFold, docData]
          rw [ih]
    | byKey r =>
      cases r with
      | error e =>
        simp only [detailsFold, docData]
        exact ih
      | ok data =>
        obtain ⟨yy, cc, lls⟩ := data
        cases lls with
        | none =>
          simp only [detailsFold, docData]
          exact ih
        | some ls =>
          simp only [detailsFold, docData]
          rw [ih]

/-- C6 (amended): document-level failures are contained where
multi-document results are assembled: a document whose serialized laureate
field fails to parse contributes nothing to the motivation count (degraded
to an empty list) and an unresolvable document is skipped by the details
lookup, with the remaining documents still processed and the call
returning normally. A failure on a single laureate entry, however, is not
contained: a missing field on one laureate (for example an absent
motivation) aborts the whole call with an internal error. -/
theorem perItemContainment_amended :
    (∀ (keyword : String) (pre post : List SearchDoc) (bad : SearchDoc),
      bad.laureates = none →
      CountLaureatesByMotivationKeyword (pre ++ bad :: post) keyword =
        CountLaureatesByMotivationKeyword (pre ++ post) keyword) ∧
    (∀ (firstname surname : String) (pre post : List DocSource) (bad : DocSource),
      docData bad = none →
      GetLaureateDetailsByName (pre ++ bad :: post) firstname surname =
        GetLaureateDetailsByName (pre ++ post) firstname surname) := by
  constructor
  · intro keyword pre post bad hb
    unfold CountLaureatesByMotivationKeyword
    by_cases hguard : (keyword == "" || jsTrim keyword == "") = true
    · rw [if_pos hguard, if_pos hguard]
    · rw [if_neg hguard, if_neg hguard]
      rw [motivationFold_skip keyword pre post bad hb]
  · intro firstname surname pre post bad hb
    unfold GetLaureateDetailsByName
    by_cases hguard : (firstname == "" || surname == "") = true
    · rw [if_pos hguard, if_pos hguard]
    · rw [if_neg hguard, if_neg hguard]
      cases hpp : pre ++ post with
      | nil =>
        obtain ⟨hpre, hpost⟩ := List.append_eq_nil.mp hpp
        subst hpre
        subst hpost
        simp only [List.nil_append]
        simp [detailsFold]
        rw [hb]
      | cons x xs =>
        have h1 : (((pre ++ bad :: post).length == 0) = false) := by
          simp
        have h2 : (((pre ++ post).length == 0) = false) := by
          rw [hpp]
          simp
        rw [if_neg (by simp [h1]), if_neg (by simp [h2])]
        rw [detailsFold_skip firstname surname pre post bad hb]
        rw [hpp]

theorem perItemContainment_amended_witness :
    CountLaureatesByMotivationKeyword [⟨2015, "y", none⟩, ⟨2016, "x", some []⟩] "k" =
      CountLaureatesByMotivationKeyword [⟨2016, "x", some []⟩] "k" ∧
    GetLaureateDetailsByName [DocSource.inline none] "A" "B" =
      GetLaureateDetailsByName [] "A" "B" :=
  ⟨perItemContainment_amended.1 "k" [] [⟨2016, "x", some []⟩] ⟨2015, "y", none⟩ rfl,
   perItemContainment_amended.2 "A" "B" [] [] (DocSource.inline none) rfl⟩

/-- C6 (counterexample): a store with a single document holding one
processable laureate and one laureate with a missing motivation field
makes CountLaureatesByMotivationKeyword return an internal error instead
of a response, so a failure on a single laureate entry is not contained at
that item. -/
theorem perItemContainment_counterexample :
    CountLaureatesByMotivationKeyword
        [⟨2015, "physics", some [devLaureate, noMotivationLaureate]⟩] "development" =
      .error .internal := by
  decide

theorem uploadLaureates_content (p : Prize) (ls : List Laureate) (idx : Nat) :
    (uploadLaureates p ls idx).1.map contentOf =
      (ls.filter validateLaureate).map (laureateContentOf p) := by
  induction ls generalizing idx with
  | nil => rfl
  | cons l ls ih =>
    by_cases hv : validateLaureate l = true
    · simp [uploadLaureates, hv, List.filter_cons, ih, contentOf, laureateDocOf,
        laureateContentOf]
    · simp [uploadLaureates, hv, List.filter_cons, ih]

theorem buildLayoutB_content (ps : List Prize) (idx : Nat) :
    (buildLayoutB ps idx).map contentOf =
      ps.flatMap fun p => (p.laureates.filter validateLaureate).map (laureateContentOf p) := by
  induction ps generalizing idx with
  | nil => rfl
  | cons p ps ih =>
    simp [buildLayoutB, List.map_append, uploadLaureates_content, ih]

theorem uploadDataToRedis_laureates (ps : List Prize) (counters : List Char → Nat) :
    (uploadDataToRedis ps counters).map (fun u => u.doc.laureates) =
      ps.map Prize.laureates := by
  induction ps generalizing counters with
  | nil => rfl
  | cons p ps ih =>
    simp [uploadDataToRedis, prizeDocA, ih]

/-- C3 (amended): a LaureateRef with no firstname and no surname is
rejected only by the Layout-B document builder, where rejection is
per-record and not fatal to the batch: Layout B builds documents from
exactly the laureates that pass validation. The Layout-A builder embeds
the prize's laureate list unchanged, so such a laureate is indexed under
Layout A and can appear in Layout-A query results. -/
theorem rejectNoName_amended (ps : List Prize) (idx : Nat) :
    ((buildLayoutB ps idx).map contentOf =
      ps.flatMap fun p =>
        (p.laureates.filter validateLaureate).map (laureateContentOf p)) ∧
    ((layoutA ps).map (fun u => u.doc.laureates) = ps.map Prize.laureates) :=
  ⟨buildLayoutB_content ps idx, uploadDataToRedis_laureates ps _⟩

/-- C3 (counterexample): a laureate with neither firstname nor surname
fails validation, yet the Layout-A builder indexes it unchanged and
GetPrizesByCategory returns it in a query result, so the rejection does
not hold under Layout A. -/
theorem rejectNoName_counterexample :
    validateLaureate noNameLaureate = false ∧
    (GetPrizesByCategory ((layoutA [noNamePrize]).map fun u => searchDocOfA u.doc)
        "chemistry").2 =
      .ok { prizes := [{ year := 2019, category := "chemistry",
                         laureates := [noNameLaureate] }] } := by
  exact ⟨rfl, rfl⟩

theorem safeJsonSet_ok (write : Nat → Except Unit Unit) (r : Nat)
    (h : write r = .ok ()) :
    safeJsonSet write r = { attempts := 1, succeeded := true, loggedFailure := false } := by
  rw [safeJsonSet]
  rw [h]

theorem safeJsonSet_retry (write : Nat → Except Unit Unit) (r : Nat)
    (h : r < MAX_RETRIES) (he : write r = .error ()) :
    safeJsonSet write r =
      { attempts := (safeJsonSet write (r + 1)).attempts + 1,
        succeeded := (safeJsonSet write (r + 1)).succeeded,
        loggedFailure := (safeJsonSet write (r + 1)).loggedFailure } := by
  rw [safeJsonSet]
  rw [he]
  simp [h]

theorem safeJsonSet_giveup (write : Nat → Except Unit Unit) (r : Nat)
    (h : ¬ r < MAX_RETRIES) (he : write r = .error ()) :
    safeJsonSet write r = { attempts := 1, succeeded := false, loggedFailure := true } := by
  rw [safeJsonSet]
  rw [he]
  simp [h]

theorem safeJsonSet_attempts_le_aux (write : Nat → Except Unit Unit) :
    ∀ n r, MAX_RETRIES - r ≤ n → (safeJsonSet write r).attempts ≤ n + 1 := by
  intro n
  induction n with
  | zero =>
    intro r hr
    cases hw : write r with
    | ok v =>
      cases v
      rw [safeJsonSet_ok write r hw]
    | error e =>
      cases e
      rw [safeJsonSet_giveup write r (by omega) hw]
  | succ n ih =>
    intro r hr
    cases hw : write r with
    | ok v =>
      cases v
      rw [safeJsonSet_ok write r hw]
      simp
    | error e =>
      cases e
      by_cases hlt : r < MAX_RETRIES
      · rw [safeJsonSet_retry write r hlt hw]
        have := ih (r + 1) (by omega)
        simpa using Nat.add_le_add_right this 1
      · rw [safeJsonSet_giveup write r hlt hw]
        simp

/-- C8: each failing document write is retried up to 3 additional times,
so at most 4 attempts are made in total; if all 4 attempts fail, the
failure is logged and the call returns normally (no error propagates);
if the attempt at retry count `k ≤ 3` succeeds after `k` failures, exactly
`k + 1` attempts are made and nothing is logged. -/
theorem safeJsonSet_spec (write : Nat → Except Unit Unit) :
    (safeJsonSet write 0).attempts ≤ 4 ∧
    ((∀ i, i ≤ 3 → write i = .error ()) →
      safeJsonSet write 0 = { attempts := 4, succeeded := false, loggedFailure := true }) ∧
    (∀ k, k ≤ 3 → (∀ i, i < k → write i = .error ()) → write k = .ok () →
      safeJsonSet write 0 =
        { attempts := k + 1, succeeded := true, loggedFailure := false }) := by
  refine ⟨?_, ?_, ?_⟩
  · have := safeJsonSet_attempts_le_aux write 3 0 (by norm_num [MAX_RETRIES])
    omega
  · intro h
    rw [safeJsonSet_retry write 0 (by norm_num [MAX_RETRIES]) (h 0 (by norm_num))]
    rw [safeJsonSet_retry write 1 (by norm_num [MAX_RETRIES]) (h 1 (by norm_num))]
    rw [safeJsonSet_retry write 2 (by norm_num [MAX_RETRIES]) (h 2 (by norm_num))]
    rw [safeJsonSet_giveup write 3 (by norm_num [MAX_RETRIES]) (h 3 (by norm_num))]
  · intro k hk hfail hok
    interval_cases k
    · rw [safeJsonSet_ok write 0 hok]
    · rw [safeJsonSet_retry write 0 (by norm_num [MAX_RETRIES]) (hfail 0 (by norm_num))]
      rw [safeJsonSet_ok write 1 hok]
    · rw [safeJsonSet_retry write 0 (by norm_num [MAX_RETRIES]) (hfail 0 (by norm_num))]
      rw [safeJsonSet_retry write 1 (by norm_num [MAX_RETRIES]) (hfail 1 (by norm_num))]
      rw [safeJsonSet_ok write 2 hok]
    · rw [safeJsonSet_retry write 0 (by norm_num [MAX_RETRIES]) (hfail 0 (by norm_num))]
      rw [safeJsonSet_retry write 1 (by norm_num [MAX_RETRIES]) (hfail 1 (by norm_num))]
      rw [safeJsonSet_retry write 2 (by norm_num [MAX_RETRIES]) (hfail 2 (by norm_num))]
      rw [safeJsonSet_ok write 3 hok]

theorem safeJsonSet_spec_witness :
    safeJsonSet (fun _ => .error ()) 0 =
      { attempts := 4, succeeded := false, loggedFailure := true } ∧
    safeJsonSet (fun i => if i < 2 then .error () else .ok ()) 0 =
      { attempts := 3, succeeded := true, loggedFailure := false } :=
  ⟨(safeJsonSet_spec (fun _ => .error ())).2.1 (fun i _ => rfl),
   (safeJsonSet_spec (fun i => if i < 2 then .error () else .ok ())).2.2 2
     (by norm_num) (fun i hi => by interval_cases i <;> rfl) rfl⟩

theorem digitChar_ne_colon (d : Nat) (h : d < 10) : digitChar d ≠ ':' := by
  interval_cases d <;> decide

theorem colon_not_mem_natToChars (n : Nat) : ':' ∉ natToChars n := by
  intro hmem
  unfold natToChars at hmem
  by_cases h : n = 0
  · rw [if_pos h] at hmem
    simp at hmem
  · rw [if_neg h] at hmem
    rw [List.mem_reverse, List.mem_map] at hmem
    obtain ⟨d, hd, hcolon⟩ := hmem
    have hlt : d < 10 := Nat.digits_lt_base (by norm_num) hd
    exact digitChar_ne_colon d hlt hcolon

theorem charsToNat_natToChars (n : Nat) : charsToNat (natToChars n) = n := by
  unfold charsToNat natToChars
  by_cases h : n = 0
  · subst h
    decide
  · rw [if_neg h, List.reverse_reverse, List.map_map]
    have hmap : ∀ d ∈ Nat.digits 10 n, (charToDigit ∘ digitChar) d = d := by
      intro d hd
      have hlt : d < 10 := Nat.digits_lt_base (by norm_num) hd
      interval_cases d <;> decide
    rw [List.map_congr_left hmap]
    simpa using Nat.ofDigits_digits 10 n

theorem natToChars_inj : Function.Injective natToChars := by
  intro a b h
  have := congrArg charsToNat h
  rwa [charsToNat_natToChars, charsToNat_natToChars] at this

theorem sep_split_left (sep : Char) :
    ∀ (y₁ y₂ c₁ c₂ : List Char), sep ∉ y₁ → sep ∉ y₂ →
      y₁ ++ sep :: c₁ = y₂ ++ sep :: c₂ → y₁ = y₂ ∧ c₁ = c₂ := by
  intro y₁
  induction y₁ with
  | nil =>
    intro y₂ c₁ c₂ h₁ h₂ h
    cases y₂ with
    | nil => simpa using h
    | cons b bs =>
      rw [List.nil_append, List.cons_append] at h
      injection h with hb hrest
      exact absurd (by rw [hb]; exact List.mem_cons_self _ _) h₂
  | cons a as ih =>
    intro y₂ c₁ c₂ h₁ h₂ h
    cases y₂ with
    | nil =>
      rw [List.cons_append, List.nil_append] at h
      injection h with ha hrest
      exact absurd (by rw [← ha]; exact List.mem_cons_self _ _) h₁
    | cons b bs =>
      rw [List.cons_append, List.cons_append] at h
      injection h with hab hrest
      have h₁' : sep ∉ as := fun hm => h₁ (List.mem_cons_of_mem _ hm)
      have h₂' : sep ∉ bs := fun hm => h₂ (List.mem_cons_of_mem _ hm)
      obtain ⟨hy, hc⟩ := ih bs c₁ c₂ h₁' h₂' hrest
      exact ⟨by rw [hab, hy], hc⟩

theorem sep_split_right (sep : Char) :
    ∀ (b₁ b₂ d₁ d₂ : List Char), sep ∉ d₁ → sep ∉ d₂ →
      b₁ ++ sep :: d₁ = b₂ ++ sep :: d₂ → b₁ = b₂ ∧ d₁ = d₂ := by
  intro b₁
  induction b₁ with
  | nil =>
    intro b₂ d₁ d₂ h₁ h₂ h
    cases b₂ with
    | nil => simpa using h
    | cons x xs =>
      rw [List.nil_append, List.cons_append] at h
      injection h with hx hrest
      exact absurd (hrest ▸ List.mem_append_right xs (List.mem_cons_self sep d₂)) h₁
  | cons a as ih =>
    intro b₂ d₁ d₂ h₁ h₂ h
    cases b₂ with
    | nil =>
      rw [List.cons_append, List.nil_append] at h
      injection h with hx hrest
      exact absurd (hrest ▸ List.mem_append_right as (List.mem_cons_self sep d₁)) h₂
    | cons b bs =>
      rw [List.cons_append, List.cons_append] at h
      injection h with hab hrest
      obtain ⟨hy, hc⟩ := ih bs d₁ d₂ h₁ h₂ hrest
      exact ⟨by rw [hab, hy], hc⟩

theorem string_toList_inj {s t : String} (h : s.toList = t.toList) : s = t := by
  cases s
  cases t
  exact congrArg String.mk h

theorem renderBase_inj (y₁ y₂ : Nat) (c₁ c₂ : String)
    (h : renderBase y₁ c₁ = renderBase y₂ c₂) : y₁ = y₂ ∧ c₁ = c₂ := by
  unfold renderBase at h
  rw [List.append_assoc, List.append_assoc] at h
  have h' := List.append_cancel_left h
  obtain ⟨hy, hc⟩ := sep_split_left ':' _ _ _ _
    (colon_not_mem_natToChars y₁) (colon_not_mem_natToChars y₂) h'
  exact ⟨natToChars_inj hy, string_toList_inj hc⟩

theorem renderKey_inj (b₁ b₂ : List Char) (k₁ k₂ : Nat)
    (h : renderKey b₁ k₁ = renderKey b₂ k₂) : b₁ = b₂ ∧ k₁ = k₂ := by
  unfold renderKey at h
  obtain ⟨hb, hk⟩ := sep_split_right ':' b₁ b₂ _ _
    (colon_not_mem_natToChars k₁) (colon_not_mem_natToChars k₂) h
  exact ⟨hb, natToChars_inj hk⟩

theorem uploadDataToRedis_counters (ps : List Prize) :
    ∀ (counters : List Char → Nat) (b : List Char),
      ((uploadDataToRedis ps counters).filter (fun u => u.keyBase = b)).map
          (fun u => u.counter) =
        List.range' (counters b)
          (ps.countP fun p => renderBase p.year p.category = b) := by
  induction ps with
  | nil =>
    intro counters b
    simp [uploadDataToRedis]
  | cons p ps ih =>
    intro counters b
    by_cases hb : renderBase p.year p.category = b
    · subst hb
      simp [uploadDataToRedis, List.filter_cons, List.countP_cons, ih]
      try rfl
    · simp [uploadDataToRedis, List.filter_cons, List.countP_cons, ih, hb, Ne.symm hb]

theorem uploadDataToRedis_counter_le (ps : List Prize) :
    ∀ (counters : List Char → Nat), ∀ u ∈ uploadDataToRedis ps counters,
      counters u.keyBase ≤ u.counter := by
  induction ps with
  | nil =>
    intro counters u hu
    simp [uploadDataToRedis] at hu
  | cons p ps ih =>
    intro counters u hu
    simp only [uploadDataToRedis, List.mem_cons] at hu
    rcases hu with rfl | hu
    · exact le_refl _
    · refine le_trans ?_ (ih _ u hu)
      by_cases hb : u.keyBase = renderBase p.year p.category
      · rw [if_pos hb, hb]
        exact Nat.le_succ _
      · rw [if_neg hb]

theorem uploadDataToRedis_pairs_nodup (ps : List Prize) :
    ∀ (counters : List Char → Nat),
      ((uploadDataToRedis ps counters).map (fun u => (u.keyBase, u.counter))).Nodup := by
  induction ps with
  | nil =>
    intro counters
    simp [uploadDataToRedis]
  | cons p ps ih =>
    intro counters
    simp only [uploadDataToRedis, List.map_cons]
    rw [List.nodup_cons]
    refine ⟨?_, ih _⟩
    intro hmem
    rw [List.mem_map] at hmem
    obtain ⟨u, hu, hpair⟩ := hmem
    have h1 : u.keyBase = renderBase p.year p.category := congrArg Prod.fst hpair
    have h2 : u.counter = counters (renderBase p.year p.category) := congrArg Prod.snd hpair
    have h3 := uploadDataToRedis_counter_le ps _ u hu
    rw [h1, if_pos rfl] at h3
    omega

theorem layoutAKeys_nodup (ps : List Prize) : (layoutAKeys ps).Nodup := by
  unfold layoutAKeys layoutA
  have hpairs := uploadDataToRedis_pairs_nodup ps (fun _ => 1)
  have hmaps : (uploadDataToRedis ps (fun _ => 1)).map uploadedKey =
      ((uploadDataToRedis ps (fun _ => 1)).map (fun u => (u.keyBase, u.counter))).map
        (fun bk => renderKey bk.1 bk.2) := by
    rw [List.map_map]
    rfl
  rw [hmaps]
  refine List.Nodup.map ?_ hpairs
  intro bk1 bk2 h
  obtain ⟨hb, hk⟩ := renderKey_inj bk1.1 bk2.1 bk1.2 bk2.2 h
  exact Prod.ext hb hk

/-- C7: for every sequence of AwardRecords (with integer years, per the
data model), all generated Layout-A keys are pairwise distinct, and for
each (year, category) pair the counter values assigned to the records
sharing that pair form the gap-free sequence 1, 2, ..., k. -/
theorem layoutA_keys_spec (ps : List Prize) :
    (layoutAKeys ps).Nodup ∧
    ∀ (y : Nat) (cat : String),
      ((layoutA ps).filter (fun u => u.keyBase = renderBase y cat)).map
          (fun u => u.counter) =
        List.range' 1 (ps.countP fun p => p.year == y && p.category == cat) := by
  refine ⟨layoutAKeys_nodup ps, ?_⟩
  intro y cat
  unfold layoutA
  rw [uploadDataToRedis_counters ps (fun _ => 1) (renderBase y cat)]
  congr 1
  apply List.countP_congr
  intro p _
  by_cases h : p.year = y ∧ p.category = cat
  · simp [h.1, h.2]
  · have hne : ¬ (renderBase p.year p.category = renderBase y cat) := by
      intro he
      obtain ⟨hy, hc⟩ := renderBase_inj p.year y p.category cat he
      exact h ⟨hy, hc⟩
    have hne2 : ¬ (p.year = y ∧ p.category = cat) := h
    simp [hne]
    intro hy hc
    exact absurd ⟨hy, hc⟩ hne2

theorem embed_amended_witness :
    embedSlot "Ada" 0 = 65 / 255 ∧ embedSlot "Ada" 5 = 0 ∧
    (0 ≤ embedSlot "Ada" 1 ∧ embedSlot "Ada" 1 ≤ 1) := by
  obtain ⟨hlen, hdet, hform, hzero, hbound⟩ := embed_amended "Ada"
  refine ⟨?_, ?_, ?_⟩
  · rw [hform 0 (by decide)]
    rw [show charCodeAt "Ada" 0 = 65 from by decide]
    norm_num
  · exact hzero 5 (by decide) (by decide)
  · exact hbound (by decide) 1 (by decide)
